import Mathlib

/-!
Shallow embedding of the kinematic core of the jsrob URDF viewer
(frontend/public/urdfreader.js, frontend/public/js/urdf-utils.js and the
URDF IK solver module), together with theorems settling the frozen claims
about it.

Numeric model: the JavaScript code computes with IEEE doubles through the
THREE.js math library.  The embedding is parametric in a linear ordered
field K together with an interpretation NumOps of the transcendental
primitives the code uses (Math.cos, Math.sin, Math.sqrt via
Vector3.length / distanceTo, Math.acos, Math.PI).  Structural claims are
proved for every interpretation; facts that rely on real trigonometry
(cos 0 = 1, sin 0 = 0, acos 1 = 0) take them as explicit hypotheses, which
the real functions satisfy.  Rotations that THREE produces via quaternions
(Quaternion.setFromAxisAngle and setFromEuler followed by conversion to a
matrix) are modelled directly at the rotation-matrix level (the Rodrigues
matrix of makeRotationAxis, the XYZ Euler product), to which they are
equal under real arithmetic.  Matrix4.decompose is modelled as returning
the translation column and the (unit-scale) linear part; the quaternion a
renderer would extract is a re-encoding of that rotation matrix.

JavaScript Map objects keyed by name are modelled as association lists
looked up by first match; the parser stores each link and joint under its
name, so keys are unique (stated as a Nodup hypothesis where a proof
needs it).  A falsy string (the empty string) plays the role JavaScript
gives it in truthiness tests; a null or undefined object is an Option.
-/

namespace JsRob

/-- Interpretation of the numeric primitives used by the JavaScript code:
cosine, sine, square root, arc cosine and pi. -/
structure NumOps (K : Type) where
  tcos : K → K
  tsin : K → K
  tsqrt : K → K
  tacos : K → K
  tpi : K

variable {K : Type} [LinearOrderedField K]

/-- THREE.Vector3 restricted to its components. -/
structure Vec3 (K : Type) where
  x : K
  y : K
  z : K
  deriving DecidableEq

/-- THREE.Quaternion components (x, y, z, w). -/
structure Quat (K : Type) where
  qx : K
  qy : K
  qz : K
  qw : K
  deriving DecidableEq

/-- Linear (rotation) part of a THREE.Matrix4, row major. -/
structure Mat3 (K : Type) where
  m00 : K
  m01 : K
  m02 : K
  m10 : K
  m11 : K
  m12 : K
  m20 : K
  m21 : K
  m22 : K
  deriving DecidableEq

/-- A rigid THREE.Matrix4: linear part plus translation column.  Every
matrix the kinematic core builds has unit scale and bottom row 0 0 0 1. -/
structure Transf (K : Type) where
  lin : Mat3 K
  pos : Vec3 K
  deriving DecidableEq

def Mat3.id3 : Mat3 K := ⟨1, 0, 0, 0, 1, 0, 0, 0, 1⟩

def Mat3.mul (A B : Mat3 K) : Mat3 K :=
  ⟨A.m00 * B.m00 + A.m01 * B.m10 + A.m02 * B.m20,
   A.m00 * B.m01 + A.m01 * B.m11 + A.m02 * B.m21,
   A.m00 * B.m02 + A.m01 * B.m12 + A.m02 * B.m22,
   A.m10 * B.m00 + A.m11 * B.m10 + A.m12 * B.m20,
   A.m10 * B.m01 + A.m11 * B.m11 + A.m12 * B.m21,
   A.m10 * B.m02 + A.m11 * B.m12 + A.m12 * B.m22,
   A.m20 * B.m00 + A.m21 * B.m10 + A.m22 * B.m20,
   A.m20 * B.m01 + A.m21 * B.m11 + A.m22 * B.m21,
   A.m20 * B.m02 + A.m21 * B.m12 + A.m22 * B.m22⟩

def Mat3.mulVec (A : Mat3 K) (v : Vec3 K) : Vec3 K :=
  ⟨A.m00 * v.x + A.m01 * v.y + A.m02 * v.z,
   A.m10 * v.x + A.m11 * v.y + A.m12 * v.z,
   A.m20 * v.x + A.m21 * v.y + A.m22 * v.z⟩

def Vec3.add (a b : Vec3 K) : Vec3 K := ⟨a.x + b.x, a.y + b.y, a.z + b.z⟩

/-- The identity Matrix4 (new THREE.Matrix4()). -/
def Transf.ident : Transf K := ⟨Mat3.id3, ⟨0, 0, 0⟩⟩

/-- Matrix4.prototype.multiply: result = this * m (post-multiplication),
restricted to rigid matrices. -/
def Transf.multiply (a m : Transf K) : Transf K :=
  ⟨a.lin.mul m.lin, (a.lin.mulVec m.pos).add a.pos⟩

/-- Rotation about the x axis with the given cosine and sine. -/
def Mat3.rotX (c s : K) : Mat3 K := ⟨1, 0, 0, 0, c, -s, 0, s, c⟩

/-- Rotation about the y axis with the given cosine and sine. -/
def Mat3.rotY (c s : K) : Mat3 K := ⟨c, 0, s, 0, 1, 0, -s, 0, c⟩

/-- Rotation about the z axis with the given cosine and sine. -/
def Mat3.rotZ (c s : K) : Mat3 K := ⟨c, -s, 0, s, c, 0, 0, 0, 1⟩

/-- Rotation matrix of new THREE.Euler(r, p, y, 'XYZ'), which THREE
realizes as Rx(r) * Ry(p) * Rz(y); the quaternion detour of
Quaternion.setFromEuler is modelled at the matrix level. -/
def eulerXYZ (N : NumOps K) (r p y : K) : Mat3 K :=
  (Mat3.rotX (N.tcos r) (N.tsin r)).mul
    ((Mat3.rotY (N.tcos p) (N.tsin p)).mul (Mat3.rotZ (N.tcos y) (N.tsin y)))

def Vec3.lengthSq (v : Vec3 K) : K := v.x * v.x + v.y * v.y + v.z * v.z

/-- THREE.Vector3.normalize: divideScalar(length || 1), so a vector whose
length evaluates to 0 is returned unchanged. -/
def Vec3.normalizeV (N : NumOps K) (v : Vec3 K) : Vec3 K :=
  let l := N.tsqrt v.lengthSq
  if l = 0 then v else ⟨v.x / l, v.y / l, v.z / l⟩

/-- THREE.Vector3.distanceTo: the square root of the summed squared
component differences. -/
def Vec3.distanceTo (N : NumOps K) (a b : Vec3 K) : K :=
  N.tsqrt ((a.x - b.x) * (a.x - b.x) + (a.y - b.y) * (a.y - b.y)
    + (a.z - b.z) * (a.z - b.z))

/-- THREE.Quaternion.dot. -/
def quatDot (a b : Quat K) : K :=
  a.qx * b.qx + a.qy * b.qy + a.qz * b.qz + a.qw * b.qw

/-- The antipodal quaternion, representing the same rotation. -/
def Quat.negQ (q : Quat K) : Quat K := ⟨-q.qx, -q.qy, -q.qz, -q.qw⟩

/-- Matrix4.makeRotationAxis: the Rodrigues rotation matrix about the
given axis, exactly as THREE writes its entries.  The quaternion route
the viewer also uses (Quaternion.setFromAxisAngle followed by
makeRotationFromQuaternion) is equal to it under real arithmetic and is
modelled by this same matrix. -/
def makeRotationAxis (N : NumOps K) (axis : Vec3 K) (angle : K) : Mat3 K :=
  let c := N.tcos angle
  let s := N.tsin angle
  let t := 1 - c
  ⟨t * axis.x * axis.x + c, t * axis.x * axis.y - s * axis.z,
     t * axis.x * axis.z + s * axis.y,
   t * axis.x * axis.y + s * axis.z, t * axis.y * axis.y + c,
     t * axis.y * axis.z - s * axis.x,
   t * axis.x * axis.z - s * axis.y, t * axis.y * axis.z + s * axis.x,
     t * axis.z * axis.z + c⟩

/-- Matrix4.makeTranslation. -/
def makeTranslation (v : Vec3 K) : Transf K := ⟨Mat3.id3, v⟩

/-- TransformationUtils.createTransformMatrix: position plus an XYZ Euler
rotation composed into a rigid matrix (Matrix4.compose with unit scale). -/
def TransformationUtils.createTransformMatrix (N : NumOps K) (xyz rpy : Vec3 K) :
    Transf K :=
  ⟨eulerXYZ N rpy.x rpy.y rpy.z, xyz⟩

/-- Result of Matrix4.decompose as the core consumes it: a world position
and an orientation.  The orientation is kept as the rotation matrix; the
quaternion THREE extracts from a unit-scale rigid matrix is a re-encoding
of this matrix. -/
structure PoseM (K : Type) where
  position : Vec3 K
  orientation : Mat3 K
  deriving DecidableEq

/-- TransformationUtils.decomposeTransform. -/
def TransformationUtils.decomposeTransform (m : Transf K) : PoseM K :=
  ⟨m.pos, m.lin⟩

/-- CostCalculator.calculatePositionCost: point1.distanceTo(point2). -/
def CostCalculator.calculatePositionCost (N : NumOps K) (point1 point2 : Vec3 K) :
    K :=
  point1.distanceTo N point2

/-- CostCalculator.calculateRotationCost:
acos(min(1, max(-1, 2 * |dot|^2 - 1))). -/
def CostCalculator.calculateRotationCost (N : NumOps K) (quat1 quat2 : Quat K) :
    K :=
  let dotProduct := |quatDot quat1 quat2|
  N.tacos (min 1 (max (-1) (2 * dotProduct * dotProduct - 1)))

/-- CostCalculator.calculateCombinedCost with an explicit rotation
weight: positionWeight * positionCost + rotationWeight * rotationCost
with positionWeight fixed at 1.0. -/
def CostCalculator.calculateCombinedCost (N : NumOps K) (point1 point2 : Vec3 K)
    (quat1 quat2 : Quat K) (rotationWeight : K) : K :=
  let positionWeight : K := 1
  let positionCost := CostCalculator.calculatePositionCost N point1 point2
  let rotationCost := CostCalculator.calculateRotationCost N quat1 quat2
  positionWeight * positionCost + rotationWeight * rotationCost

/-- CostCalculator.calculateCombinedCost with the rotationWeight argument
omitted, which JavaScript defaults to 0.5. -/
def CostCalculator.calculateCombinedCostDefault (N : NumOps K)
    (point1 point2 : Vec3 K) (quat1 quat2 : Quat K) : K :=
  CostCalculator.calculateCombinedCost N point1 point2 quat1 quat2 (1 / 2)

/-- URDF joint kind strings as a closed enumeration. -/
inductive JointType
  | revolute
  | continuous
  | prismatic
  | fixed
  | floating
  | planar
  deriving DecidableEq

/-- An origin element: xyz and rpy triples, each defaulted to [0,0,0]
where a consumer writes origin.xyz || [0,0,0]. -/
structure OriginData (K : Type) where
  xyz : Option (Vec3 K)
  rpy : Option (Vec3 K)
  deriving DecidableEq

/-- The part of a link visual element the kinematic core reads. -/
structure VisualData (K : Type) where
  origin : Option (OriginData K)
  deriving DecidableEq

/-- A link record: name plus optional visual descriptor. -/
structure Link (K : Type) where
  name : String
  visual : Option (VisualData K)
  deriving DecidableEq

/-- A joint limit pair (effort and velocity are never read by the core). -/
structure JointLimit (K : Type) where
  lower : K
  upper : K
  deriving DecidableEq

/-- A joint record.  URDFReader.parseJoint stores the limit element under
the field named limit, while RobotKinematics.enforceJointLimits and the
IK solver pre-clamp read a field named limits; both optional fields are
carried so each consumer is embedded against the field it actually
dereferences.  currentPosition is the movable-joint state
URDFReader.setJointPosition maintains (initialized to 0 by the parser). -/
structure Joint (K : Type) where
  name : String
  jtype : JointType
  parent : String
  child : String
  origin : Option (OriginData K)
  axis : Option (Vec3 K)
  limit : Option (JointLimit K)
  limits : Option (JointLimit K)
  currentPosition : K
  deriving DecidableEq

/-- The parsed robot data the kinematic classes consume: links and joints
as name-keyed insertion-ordered maps. -/
structure RobotData (K : Type) where
  links : List (Link K)
  joints : List (Joint K)
  deriving DecidableEq

/-- Map lookup by joint name (robot.joints.get(name)). -/
def findJointByName (joints : List (Joint K)) (n : String) : Option (Joint K) :=
  joints.find? (fun j => j.name == n)

/-- Linear scan for the joint whose child is the given link, in
declaration order, as both FK chain builders do. -/
def findJointByChild (joints : List (Joint K)) (c : String) : Option (Joint K) :=
  joints.find? (fun j => j.child == c)

/-- Map lookup by link name (robot.links.get(name)). -/
def findLink (links : List (Link K)) (n : String) : Option (Link K) :=
  links.find? (fun l => l.name == n)

/-- Lookup in a joint-angle map (Map.get), none when absent. -/
def mapGet (m : List (String × K)) (n : String) : Option K :=
  (m.find? (fun p => p.1 == n)).map Prod.snd

/-- The childLinkData?.visual?.origin chain both FK implementations read. -/
def visualOrigin (links : List (Link K)) (linkName : String) :
    Option (OriginData K) :=
  match findLink links linkName with
  | none => none
  | some l =>
    match l.visual with
    | none => none
    | some v => v.origin

/-- joint.origin?.xyz || [0, 0, 0]. -/
def originXyz (o : Option (OriginData K)) : Vec3 K :=
  match o with
  | none => ⟨0, 0, 0⟩
  | some od => od.xyz.getD ⟨0, 0, 0⟩

/-- joint.origin?.rpy || [0, 0, 0]. -/
def originRpy (o : Option (OriginData K)) : Vec3 K :=
  match o with
  | none => ⟨0, 0, 0⟩
  | some od => od.rpy.getD ⟨0, 0, 0⟩

/-- One entry of a kinematic chain: the joint plus its child and parent
link names, exactly the record both chain builders unshift. -/
structure ChainEntry (K : Type) where
  joint : Joint K
  childLink : String
  parentLink : String
  deriving DecidableEq

/-- Fuel-indexed version of the chain-building while loop shared by
RobotKinematics.computeJointChain and URDFIKSolver.calculateFK: find the
joint whose child is the current link, prepend its entry, move to its
parent, stop when no such joint exists or the parent name is falsy.  The
JavaScript loop carries no fuel; the termination theorem for claim C10
shows that on acyclic models the result is independent of any fuel of at
least joints.length + 1, which computeJointChain below supplies. -/
def computeJointChainFuel (joints : List (Joint K)) :
    Nat → String → List (ChainEntry K)
  | 0, _ => []
  | fuel + 1, currentLink =>
    match findJointByChild joints currentLink with
    | none => []
    | some j =>
      if j.parent = "" then [⟨j, currentLink, j.parent⟩]
      else computeJointChainFuel joints fuel j.parent ++ [⟨j, currentLink, j.parent⟩]

/-- The chain from a root down to the given end-effector link.  An empty
(falsy) end-effector name never enters the loop. -/
def computeJointChain (joints : List (Joint K)) (endEffectorName : String) :
    List (ChainEntry K) :=
  if endEffectorName = "" then []
  else computeJointChainFuel joints (joints.length + 1) endEffectorName

/-- One rootward move of the chain loop: the parent of the first joint
whose child is the current link, none when the loop would stop there. -/
def parentStep (joints : List (Joint K)) (c : String) : Option String :=
  match findJointByChild joints c with
  | none => none
  | some j => if j.parent = "" then none else some j.parent

/-- n successive rootward moves, none as soon as the walk stops. -/
def stepN (joints : List (Joint K)) : Nat → String → Option String
  | 0, c => some c
  | n + 1, c =>
    match parentStep joints c with
    | none => none
    | some p => stepN joints n p

/-- Acyclicity of the child-to-parent relation: following joints from
child link to parent link never returns to a link already visited. -/
def AcyclicParents (joints : List (Joint K)) : Prop :=
  ∀ c n, 0 < n → stepN joints n c ≠ some c

/-- Whether the chain-building walk from the given link reaches its stop
condition within the given number of iterations. -/
def chainDone (joints : List (Joint K)) : Nat → String → Bool
  | 0, _ => false
  | m + 1, c =>
    match findJointByChild joints c with
    | none => true
    | some j => if j.parent = "" then true else chainDone joints m j.parent

/-- The clamp URDFReader.setJointPosition applies when the joint carries
a limit element: max(lower, min(upper, position)); the identity without
one. -/
def limitClamp (lim : Option (JointLimit K)) (position : K) : K :=
  match lim with
  | none => position
  | some l => max l.lower (min l.upper position)

/-- In-place mutation of the joint stored under the given name: every
joint record carrying that name gets the new currentPosition (the
JavaScript map holds one joint per name). -/
def updateJoint (joints : List (Joint K)) (n : String) (v : K) : List (Joint K) :=
  joints.map (fun j => if j.name = n then { j with currentPosition := v } else j)

/-- A joint record with its mutable currentPosition erased: the part of a
joint the search loop never changes. -/
def Joint.eraseCur (j : Joint K) : Joint K := { j with currentPosition := 0 }

/-- The immutable attributes of the joint stored under a name: what a
lookup finds, with the mutable position erased. -/
def shapeAt (joints : List (Joint K)) (n : String) : Option (Joint K) :=
  (findJointByName joints n).map Joint.eraseCur

/-- URDFReader.setJointPosition: null for an unknown joint, a warning and
the unchanged stored position for a fixed joint, otherwise the limit
clamp is applied, stored as the joint currentPosition and returned. -/
def URDFReader.setJointPosition (joints : List (Joint K)) (jointName : String)
    (position : K) : List (Joint K) × Option K :=
  match findJointByName joints jointName with
  | none => (joints, none)
  | some joint =>
    if joint.jtype = JointType.fixed then (joints, some joint.currentPosition)
    else
      let limitedPosition := limitClamp joint.limit position
      (updateJoint joints jointName limitedPosition, some limitedPosition)

/-- URDFReader.getJointPosition: the stored currentPosition, null for an
unknown joint. -/
def URDFReader.getJointPosition (joints : List (Joint K)) (jointName : String) :
    Option K :=
  (findJointByName joints jointName).map Joint.currentPosition

/-- One step of RobotKinematics.calculateFK over the chain: compose the
joint origin transform, then an axis rotation through the assigned angle
(defaulted to 0, and applied whatever the joint type), then the child
link visual origin when present. -/
def RobotKinematics.fkStep (N : NumOps K) (links : List (Link K))
    (jointAngles : List (String × K)) (acc : Transf K) (entry : ChainEntry K) :
    Transf K :=
  let joint := entry.joint
  let angle := (mapGet jointAngles joint.name).getD 0
  let jointTransform :=
    TransformationUtils.createTransformMatrix N (originXyz joint.origin)
      (originRpy joint.origin)
  let axisVec := Vec3.normalizeV N (joint.axis.getD ⟨0, 0, 1⟩)
  let rotMatrix : Transf K := ⟨makeRotationAxis N axisVec angle, ⟨0, 0, 0⟩⟩
  let acc1 := (acc.multiply jointTransform).multiply rotMatrix
  match visualOrigin links entry.childLink with
  | none => acc1
  | some vo =>
    acc1.multiply
      (TransformationUtils.createTransformMatrix N (vo.xyz.getD ⟨0, 0, 0⟩)
        (vo.rpy.getD ⟨0, 0, 0⟩))

/-- RobotKinematics.calculateFK: start from the identity or the optional
root offset, fold the chain steps root to tip, decompose. -/
def RobotKinematics.calculateFK (N : NumOps K) (robotData : RobotData K)
    (endEffectorName : String) (jointAngles : List (String × K))
    (rootOffset : Option (Vec3 K)) : PoseM K :=
  let chain := computeJointChain robotData.joints endEffectorName
  let start : Transf K :=
    match rootOffset with
    | none => Transf.ident
    | some p => ⟨Mat3.id3, p⟩
  TransformationUtils.decomposeTransform
    (chain.foldl (RobotKinematics.fkStep N robotData.links jointAngles) start)

/-- RobotKinematics.enforceJointLimits: clamp to the limits field of the
named joint when that field is present, otherwise the angle unchanged. -/
def RobotKinematics.enforceJointLimits (robotData : RobotData K)
    (jointName : String) (angle : K) : K :=
  match findJointByName robotData.joints jointName with
  | none => angle
  | some jointData =>
    match jointData.limits with
    | none => angle
    | some l => max l.lower (min l.upper angle)

/-- One step of URDFIKSolver.calculateFK over the chain: compose the
joint origin transform when the joint has one; when the joint is
revolute or prismatic and the assignment contains its angle, compose an
axis rotation respectively an axis translation; then the child link
visual origin when present. -/
def URDFIKSolver.fkStep (N : NumOps K) (links : List (Link K))
    (jointAngles : List (String × K)) (acc : Transf K) (entry : ChainEntry K) :
    Transf K :=
  let jointData := entry.joint
  let acc1 :=
    match jointData.origin with
    | none => acc
    | some o =>
      acc.multiply
        (TransformationUtils.createTransformMatrix N (o.xyz.getD ⟨0, 0, 0⟩)
          (o.rpy.getD ⟨0, 0, 0⟩))
  let acc2 :=
    if (jointData.jtype = JointType.revolute ∨ jointData.jtype = JointType.prismatic)
        ∧ (mapGet jointAngles jointData.name).isSome then
      let angle := (mapGet jointAngles jointData.name).getD 0
      let axisVec := Vec3.normalizeV N (jointData.axis.getD ⟨0, 0, 1⟩)
      if jointData.jtype = JointType.revolute then
        acc1.multiply ⟨makeRotationAxis N axisVec angle, ⟨0, 0, 0⟩⟩
      else
        acc1.multiply
          (makeTranslation ⟨axisVec.x * angle, axisVec.y * angle, axisVec.z * angle⟩)
    else acc1
  match visualOrigin links entry.childLink with
  | none => acc2
  | some vo =>
    acc2.multiply
      (TransformationUtils.createTransformMatrix N (vo.xyz.getD ⟨0, 0, 0⟩)
        (vo.rpy.getD ⟨0, 0, 0⟩))

/-- URDFIKSolver.calculateFK: null without an end effector name;
otherwise rebuild the chain, start from the identity with the robot model
root position composed in (robotModel.position, a zero vector unless the
model was moved), fold the chain root to tip and decompose. -/
def URDFIKSolver.calculateFK (N : NumOps K) (joints : List (Joint K))
    (links : List (Link K)) (endEffectorName : Option String) (robotPos : Vec3 K)
    (jointAngles : List (String × K)) : Option (PoseM K) :=
  match endEffectorName with
  | none => none
  | some e =>
    let chain := computeJointChain joints e
    let start : Transf K := ⟨Mat3.id3, robotPos⟩
    some (TransformationUtils.decomposeTransform
      (chain.foldl (URDFIKSolver.fkStep N links jointAngles) start))

/-- The joint origin factor of a chain step, as a standalone transform
(identity when the joint declares no origin). -/
def originFactor (N : NumOps K) (j : Joint K) : Transf K :=
  match j.origin with
  | none => Transf.ident
  | some o =>
    TransformationUtils.createTransformMatrix N (o.xyz.getD ⟨0, 0, 0⟩)
      (o.rpy.getD ⟨0, 0, 0⟩)

/-- The child-link visual origin factor of a chain step, as a standalone
transform (identity when absent). -/
def visualFactor (N : NumOps K) (links : List (Link K)) (childLink : String) :
    Transf K :=
  match visualOrigin links childLink with
  | none => Transf.ident
  | some vo =>
    TransformationUtils.createTransformMatrix N (vo.xyz.getD ⟨0, 0, 0⟩)
      (vo.rpy.getD ⟨0, 0, 0⟩)

/-- The axisRotation operation of the specification: a pure rotation about
the defensively normalized axis. -/
def axisRotation (N : NumOps K) (axis : Vec3 K) (angle : K) : Transf K :=
  ⟨makeRotationAxis N (Vec3.normalizeV N axis) angle, ⟨0, 0, 0⟩⟩

/-- The axisTranslation operation of the specification: a pure translation
of the given distance along the normalized axis. -/
def axisTranslation (N : NumOps K) (axis : Vec3 K) (dist : K) : Transf K :=
  makeTranslation
    ⟨(Vec3.normalizeV N axis).x * dist, (Vec3.normalizeV N axis).y * dist,
      (Vec3.normalizeV N axis).z * dist⟩

/-- The joint-motion transform as the claim words it: an axis rotation for
a rotational joint with an assigned angle, an axis translation for a
translational joint with an assigned displacement, the identity (no
motion) for fixed joints and joints absent from the assignment, using the
joint normalized axis (defaulted to [0,0,1]) and the assigned scalar. -/
def jointMotionSpec (N : NumOps K) (j : Joint K)
    (jointAngles : List (String × K)) : Transf K :=
  match mapGet jointAngles j.name with
  | none => Transf.ident
  | some a =>
    if j.jtype = JointType.revolute then axisRotation N (j.axis.getD ⟨0, 0, 1⟩) a
    else if j.jtype = JointType.prismatic then
      axisTranslation N (j.axis.getD ⟨0, 0, 1⟩) a
    else Transf.ident

/-- A target pose as the solver reads it from the scene: world position
and world quaternion of the target object. -/
structure Pose3 (K : Type) where
  pos : Vec3 K
  quat : Quat K
  deriving DecidableEq

/-- The URDFIKSolver state the search steps evolve.  The THREE scene, the
marker and point-cloud visualizations and the performance counters live
outside the model; the scene-derived world pose of the end effector
enters each step as an oracle argument. -/
structure SolverState (K : Type) where
  joints : List (Joint K)
  links : List (Link K)
  endEffectorName : Option String
  targetPose : Option (Pose3 K)
  bestDistance : WithTop K
  bestJointAngles : List (String × K)
  perturbationRange : K

/-- The part of the randomizePose return object the claims speak about. -/
structure StepResult (K : Type) where
  improved : Bool
  distance : WithTop K

/-- URDFIKSolver.calculatePositionCost: Infinity without a target pose,
otherwise 1.0 times the position distance plus 0.5 times the quaternion
angle acos(min(1, max(-1, 2 * |dot|^2 - 1))) between the end effector
world quaternion (read from the scene) and the target world quaternion. -/
def URDFIKSolver.calculatePositionCost (N : NumOps K)
    (targetPose : Option (Pose3 K)) (endEffectorQuat : Quat K)
    (endEffectorPos : Vec3 K) : WithTop K :=
  match targetPose with
  | none => ⊤
  | some t =>
    let positionDistance := endEffectorPos.distanceTo N t.pos
    let dotProduct := |quatDot endEffectorQuat t.quat|
    let rotationDistance :=
      N.tacos (min 1 (max (-1) (2 * dotProduct * dotProduct - 1)))
    let positionWeight : K := 1
    let rotationWeight : K := 1 / 2
    ((positionWeight * positionDistance + rotationWeight * rotationDistance : K) :
      WithTop K)

/-- The snapshot loops of randomizePose (previousAngles, currentAngles and
the best-solution capture): every revolute or prismatic joint mapped to
its getJointPosition value. -/
def URDFIKSolver.snapshotMovable (joints : List (Joint K)) : List (String × K) :=
  joints.filterMap (fun j =>
    if j.jtype = JointType.revolute ∨ j.jtype = JointType.prismatic then
      (URDFReader.getJointPosition joints j.name).map (fun v => (j.name, v))
    else none)

/-- The body of the perturbation loop of randomizePose for one joint:
skip joints that are not revolute or prismatic; otherwise add the random
draw times the perturbation range to the snapshot angle, pre-clamp with
the limits field when present (a field the parser never sets), and store
through URDFReader.setJointPosition (which clamps with the limit field).
The parallel mutation of the THREE joint object is scene state outside
the model. -/
def URDFIKSolver.perturbJoint (N : NumOps K) (previousAngles : List (String × K))
    (rand : String → K) (perturbationRadians : K) (st : List (Joint K))
    (j : Joint K) : List (Joint K) :=
  if j.jtype = JointType.revolute ∨ j.jtype = JointType.prismatic then
    let currentAngle := (mapGet previousAngles j.name).getD 0
    let randomFloat := rand j.name
    let perturbation := randomFloat * perturbationRadians
    let newAngle :=
      match j.limits with
      | none => currentAngle + perturbation
      | some l => max l.lower (min l.upper (currentAngle + perturbation))
    (URDFReader.setJointPosition st j.name newAngle).1
  else st

/-- URDFIKSolver.applyConfiguration: store each angle of the map through
URDFReader.setJointPosition (the THREE scene update is outside the
model; the per-joint try/catch never fires in the embedded part). -/
def URDFIKSolver.applyConfiguration (joints : List (Joint K))
    (jointAngles : List (String × K)) : List (Joint K) :=
  jointAngles.foldl
    (fun st p => (URDFReader.setJointPosition st p.1 p.2).1) joints

/-- URDFIKSolver.randomizePose as a state transition.  Oracle inputs: the
uniform draws (rand, one per joint name), whether the end effector object
resolves in the scene (eeFound), and the scene-reported end effector
world pose after the candidate is applied (eePose).  The step snapshots
the movable joints, perturbs them, and when the end effector name is set
(a falsy name is modelled as none) and the object is found, evaluates the
cost: a strictly better candidate is accepted (best distance and best
angles updated, improved reported), otherwise the snapshot is re-applied
through applyConfiguration and improved is false.  Without a resolvable
end effector the step reports improved false and distance Infinity.  The
internal comparison call to calculateFK feeds only logging and marker
visualization and does not touch the solver state. -/
def URDFIKSolver.randomizePose (N : NumOps K) (s : SolverState K)
    (rand : String → K) (eeFound : Bool) (eePose : Pose3 K) :
    SolverState K × StepResult K :=
  let previousAngles := URDFIKSolver.snapshotMovable s.joints
  let perturbationRadians := s.perturbationRange * N.tpi / 180
  let joints1 :=
    s.joints.foldl
      (URDFIKSolver.perturbJoint N previousAngles rand perturbationRadians)
      s.joints
  match s.endEffectorName, eeFound with
  | some _, true =>
    let distance :=
      URDFIKSolver.calculatePositionCost N s.targetPose eePose.quat eePose.pos
    if distance < s.bestDistance then
      ({ s with
          joints := joints1
          bestDistance := distance
          bestJointAngles := URDFIKSolver.snapshotMovable joints1 },
        ⟨true, distance⟩)
    else
      ({ s with joints := URDFIKSolver.applyConfiguration joints1 previousAngles },
        ⟨false, distance⟩)
  | _, _ => ({ s with joints := joints1 }, ⟨false, ⊤⟩)

/-- URDFIKSolver.reset restricted to the modelled state: best distance
back to Infinity, best angles cleared (the cleared counters and the FK
point cloud are outside the model). -/
def URDFIKSolver.reset (s : SolverState K) : SolverState K :=
  { s with bestDistance := ⊤, bestJointAngles := [] }

/-- A sample interpretation of the numeric primitives over the rationals
for concrete evaluations.  It agrees with the real functions at every
point the concrete models below actually evaluate and depend on:
cos 0 = 1, sin 0 = 0, sqrt 1 = 1, acos 1 = 0, and the concrete
counterexample positions do not depend on the trigonometric values at
nonzero angles. -/
def sampleOps : NumOps ℚ :=
  { tcos := fun _ => 1
    tsin := fun _ => 0
    tsqrt := fun x => x
    tacos := fun x => 1 - x
    tpi := 3 }

/-- A single prismatic joint sliding the tip link along the z axis. -/
def prisJoint : Joint ℚ :=
  { name := "slide"
    jtype := JointType.prismatic
    parent := "base"
    child := "tip"
    origin := none
    axis := some ⟨0, 0, 1⟩
    limit := none
    limits := none
    currentPosition := 0 }

/-- The one-prismatic-joint model. -/
def prisModel : RobotData ℚ :=
  { links := [⟨"base", none⟩, ⟨"tip", none⟩], joints := [prisJoint] }

/-- The chain entry of the prismatic model. -/
def prisEntry : ChainEntry ℚ := ⟨prisJoint, "tip", "base"⟩

/-- A single revolute joint, origin one unit along x, rotating about z. -/
def revJoint : Joint ℚ :=
  { name := "elbow"
    jtype := JointType.revolute
    parent := "base"
    child := "tip"
    origin := some ⟨some ⟨1, 0, 0⟩, some ⟨0, 0, 0⟩⟩
    axis := some ⟨0, 0, 1⟩
    limit := none
    limits := none
    currentPosition := 0 }

/-- The one-revolute-joint model. -/
def revModel : RobotData ℚ :=
  { links := [⟨"base", none⟩, ⟨"tip", none⟩], joints := [revJoint] }

/-- A two-revolute-joint serial chain base, link1, tip. -/
def twoModel : RobotData ℚ :=
  { links := [⟨"base", none⟩, ⟨"link1", none⟩, ⟨"tip", none⟩]
    joints :=
      [{ name := "j1"
         jtype := JointType.revolute
         parent := "base"
         child := "link1"
         origin := none
         axis := some ⟨0, 0, 1⟩
         limit := none
         limits := none
         currentPosition := 0 },
       { name := "j2"
         jtype := JointType.revolute
         parent := "link1"
         child := "tip"
         origin := none
         axis := some ⟨0, 0, 1⟩
         limit := none
         limits := none
         currentPosition := 0 }] }

/-- A revolute joint whose stored position 0 lies outside its declared
limit range [1, 2]. -/
def outJoint : Joint ℚ :=
  { name := "elbow"
    jtype := JointType.revolute
    parent := "base"
    child := "tip"
    origin := none
    axis := some ⟨0, 0, 1⟩
    limit := some ⟨1, 2⟩
    limits := none
    currentPosition := 0 }

/-- Solver state around outJoint, with an end effector and no target, so
every step is rejected. -/
def outState : SolverState ℚ :=
  { joints := [outJoint]
    links := [⟨"base", none⟩, ⟨"tip", none⟩]
    endEffectorName := some "tip"
    targetPose := none
    bestDistance := ⊤
    bestJointAngles := []
    perturbationRange := 10 }

/-- A revolute joint whose stored position 0 lies inside its declared
limit range [-1, 1]. -/
def inJoint : Joint ℚ :=
  { name := "elbow"
    jtype := JointType.revolute
    parent := "base"
    child := "tip"
    origin := none
    axis := some ⟨0, 0, 1⟩
    limit := some ⟨-1, 1⟩
    limits := none
    currentPosition := 0 }

/-- Solver state around inJoint, with an end effector and no target. -/
def inState : SolverState ℚ :=
  { joints := [inJoint]
    links := [⟨"base", none⟩, ⟨"tip", none⟩]
    endEffectorName := some "tip"
    targetPose := none
    bestDistance := ⊤
    bestJointAngles := []
    perturbationRange := 10 }

/-- A joint carrying the same limit range [-1, 2] in both the limit field
the reader clamps with and the limits field enforceJointLimits reads. -/
def bothLimJoint : Joint ℚ :=
  { name := "elbow"
    jtype := JointType.revolute
    parent := "base"
    child := "tip"
    origin := none
    axis := some ⟨0, 0, 1⟩
    limit := some ⟨-1, 2⟩
    limits := some ⟨-1, 2⟩
    currentPosition := 0 }

/-- Robot data holding bothLimJoint. -/
def bothLimModel : RobotData ℚ :=
  { links := [⟨"base", none⟩, ⟨"tip", none⟩], joints := [bothLimJoint] }

/-- An identity pose oracle for concrete solver steps. -/
def idPose : Pose3 ℚ := ⟨⟨0, 0, 0⟩, ⟨0, 0, 0, 1⟩⟩

/-! Helper lemmas: transform algebra. -/

theorem Mat3.mul_id3 (A : Mat3 K) : A.mul Mat3.id3 = A := by
  cases A; simp [Mat3.mul, Mat3.id3]

theorem Mat3.id3_mul (A : Mat3 K) : Mat3.id3.mul A = A := by
  cases A; simp [Mat3.mul, Mat3.id3]

theorem Transf.multiply_ident (a : Transf K) : a.multiply Transf.ident = a := by
  cases a with
  | mk lin pos =>
    simp [Transf.multiply, Transf.ident, Mat3.mul_id3, Mat3.mulVec, Vec3.add]

theorem Transf.ident_multiply (a : Transf K) : Transf.ident.multiply a = a := by
  cases a with
  | mk lin pos =>
    cases pos
    cases lin
    simp [Transf.multiply, Transf.ident, Mat3.mul, Mat3.id3, Mat3.mulVec, Vec3.add]

theorem makeRotationAxis_zero (N : NumOps K) (hcos : N.tcos 0 = 1)
    (hsin : N.tsin 0 = 0) (v : Vec3 K) :
    makeRotationAxis N v 0 = Mat3.id3 := by
  simp [makeRotationAxis, hcos, hsin, Mat3.id3]

theorem eulerXYZ_zero (N : NumOps K) (hcos : N.tcos 0 = 1) (hsin : N.tsin 0 = 0) :
    eulerXYZ N 0 0 0 = Mat3.id3 := by
  simp [eulerXYZ, hcos, hsin, Mat3.rotX, Mat3.rotY, Mat3.rotZ, Mat3.mul, Mat3.id3]

theorem createTransformMatrix_zero (N : NumOps K) (hcos : N.tcos 0 = 1)
    (hsin : N.tsin 0 = 0) :
    TransformationUtils.createTransformMatrix N ⟨0, 0, 0⟩ ⟨0, 0, 0⟩ = Transf.ident := by
  simp [TransformationUtils.createTransformMatrix, Transf.ident,
    eulerXYZ_zero N hcos hsin]

theorem quatDot_comm (a b : Quat K) : quatDot a b = quatDot b a := by
  simp [quatDot]; ring

theorem quatDot_negQ (a b : Quat K) : quatDot a b.negQ = -quatDot a b := by
  simp [quatDot, Quat.negQ]; ring

/-! Helper lemmas: name-keyed joint maps and the reader mutations. -/

theorem findJointByName_name {joints : List (Joint K)} {n : String} {j : Joint K}
    (h : findJointByName joints n = some j) : j.name = n := by
  have h2 := List.find?_some h
  simpa using h2

theorem findJointByName_updateJoint (joints : List (Joint K)) (m n : String) (v : K) :
    findJointByName (updateJoint joints m v) n
      = (findJointByName joints n).map
          (fun j => if j.name = m then { j with currentPosition := v } else j) := by
  unfold updateJoint findJointByName
  rw [List.find?_map]
  have hp : ((fun j : Joint K => j.name == n) ∘ fun j =>
      if j.name = m then { j with currentPosition := v } else j)
      = fun j : Joint K => j.name == n := by
    funext j
    by_cases h : j.name = m <;> simp [h, Function.comp]
  rw [hp]

theorem eraseCur_update (j : Joint K) (v : K) :
    Joint.eraseCur { j with currentPosition := v } = j.eraseCur := rfl

theorem shapeAt_updateJoint (joints : List (Joint K)) (m n : String) (v : K) :
    shapeAt (updateJoint joints m v) n = shapeAt joints n := by
  unfold shapeAt
  rw [findJointByName_updateJoint]
  cases findJointByName joints n with
  | none => rfl
  | some j =>
    simp only [Option.map_some']
    split <;> rfl

theorem shapeAt_setJointPosition (joints : List (Joint K)) (m : String) (v : K)
    (n : String) :
    shapeAt (URDFReader.setJointPosition joints m v).1 n = shapeAt joints n := by
  unfold URDFReader.setJointPosition
  cases h : findJointByName joints m with
  | none => rfl
  | some j =>
    by_cases hf : j.jtype = JointType.fixed
    · simp [hf]
    · simp [hf, shapeAt_updateJoint]

theorem getJointPosition_setJointPosition_ne (joints : List (Joint K)) {m n : String}
    (v : K) (hne : n ≠ m) :
    URDFReader.getJointPosition (URDFReader.setJointPosition joints m v).1 n
      = URDFReader.getJointPosition joints n := by
  unfold URDFReader.setJointPosition
  cases h : findJointByName joints m with
  | none => rfl
  | some j =>
    by_cases hf : j.jtype = JointType.fixed
    · simp [hf]
    · simp only [hf, if_false]
      unfold URDFReader.getJointPosition
      rw [findJointByName_updateJoint]
      cases h2 : findJointByName joints n with
      | none => rfl
      | some j2 =>
        have hn2 : j2.name = n := findJointByName_name h2
        simp [hn2, hne]

theorem getJointPosition_setJointPosition_self (joints : List (Joint K)) {n : String}
    {j : Joint K} (v : K) (hfind : findJointByName joints n = some j)
    (hnf : j.jtype ≠ JointType.fixed) :
    (URDFReader.setJointPosition joints n v).2 = some (limitClamp j.limit v)
      ∧ URDFReader.getJointPosition (URDFReader.setJointPosition joints n v).1 n
        = some (limitClamp j.limit v) := by
  have hname : j.name = n := findJointByName_name hfind
  unfold URDFReader.setJointPosition
  rw [hfind]
  dsimp only
  rw [if_neg hnf]
  refine ⟨rfl, ?_⟩
  unfold URDFReader.getJointPosition
  rw [findJointByName_updateJoint, hfind]
  simp [hname]

theorem applyConfiguration_append (st : List (Joint K)) (l1 l2 : List (String × K)) :
    URDFIKSolver.applyConfiguration st (l1 ++ l2)
      = URDFIKSolver.applyConfiguration (URDFIKSolver.applyConfiguration st l1) l2 := by
  unfold URDFIKSolver.applyConfiguration
  rw [List.foldl_append]

theorem applyConfiguration_cons (st : List (Joint K)) (p : String × K)
    (l : List (String × K)) :
    URDFIKSolver.applyConfiguration st (p :: l)
      = URDFIKSolver.applyConfiguration (URDFReader.setJointPosition st p.1 p.2).1 l := by
  unfold URDFIKSolver.applyConfiguration
  rw [List.foldl_cons]

theorem shapeAt_applyConfiguration (st : List (Joint K)) (ps : List (String × K))
    (n : String) :
    shapeAt (URDFIKSolver.applyConfiguration st ps) n = shapeAt st n := by
  induction ps generalizing st with
  | nil => rfl
  | cons p tl ih =>
    rw [applyConfiguration_cons, ih, shapeAt_setJointPosition]

theorem getJointPosition_applyConfiguration_ne (st : List (Joint K))
    (ps : List (String × K)) (n : String) (h : ∀ p ∈ ps, p.1 ≠ n) :
    URDFReader.getJointPosition (URDFIKSolver.applyConfiguration st ps) n
      = URDFReader.getJointPosition st n := by
  induction ps generalizing st with
  | nil => rfl
  | cons p tl ih =>
    rw [applyConfiguration_cons, ih _ (fun q hq => h q (List.mem_cons_of_mem _ hq))]
    exact getJointPosition_setJointPosition_ne st _
      (Ne.symm (h p (List.mem_cons_self _ _)))

theorem shapeAt_perturbFold (N : NumOps K) (prev : List (String × K))
    (rand : String → K) (pr : K) (it : List (Joint K)) (st : List (Joint K))
    (n : String) :
    shapeAt (it.foldl (URDFIKSolver.perturbJoint N prev rand pr) st) n
      = shapeAt st n := by
  induction it generalizing st with
  | nil => rfl
  | cons a tl ih =>
    rw [List.foldl_cons, ih]
    unfold URDFIKSolver.perturbJoint
    split
    · exact shapeAt_setJointPosition st a.name _ n
    · rfl

theorem findJointByName_of_nodup {joints : List (Joint K)}
    (hnd : (joints.map Joint.name).Nodup) {j : Joint K} (hj : j ∈ joints) :
    findJointByName joints j.name = some j := by
  induction joints with
  | nil => cases hj
  | cons a tl ih =>
    rw [List.map_cons, List.nodup_cons] at hnd
    rcases List.mem_cons.mp hj with rfl | hmem
    · unfold findJointByName
      apply List.find?_cons_of_pos
      simp
    · have hane : (a.name == j.name) = false := by
        simp only [beq_eq_false_iff_ne, ne_eq]
        intro he
        exact hnd.1 (he ▸ List.mem_map_of_mem Joint.name hmem)
      unfold findJointByName
      rw [List.find?_cons, hane]
      exact ih hnd.2 hmem

theorem snapshot_entry_name {joints : List (Joint K)} {b : Joint K} {p : String × K}
    (h : (if b.jtype = JointType.revolute ∨ b.jtype = JointType.prismatic then
        (URDFReader.getJointPosition joints b.name).map (fun v => (b.name, v))
      else none) = some p) :
    p.1 = b.name := by
  split at h
  · cases hg : URDFReader.getJointPosition joints b.name with
    | none => rw [hg] at h; cases h
    | some v => rw [hg] at h; cases h; rfl
  · cases h

theorem snapshotMovable_split {joints : List (Joint K)}
    (hnd : (joints.map Joint.name).Nodup) {j : Joint K} (hj : j ∈ joints)
    (hmov : j.jtype = JointType.revolute ∨ j.jtype = JointType.prismatic) :
    ∃ P1 P2,
      URDFIKSolver.snapshotMovable joints
          = P1 ++ (j.name, j.currentPosition) :: P2
        ∧ (∀ p ∈ P1, p.1 ≠ j.name) ∧ (∀ p ∈ P2, p.1 ≠ j.name) := by
  have hget : URDFReader.getJointPosition joints j.name = some j.currentPosition := by
    unfold URDFReader.getJointPosition
    rw [findJointByName_of_nodup hnd hj]
    rfl
  obtain ⟨B, A, hBA⟩ := List.append_of_mem hj
  subst hBA
  have hBne : ∀ b ∈ B, b.name ≠ j.name := by
    rw [List.map_append, List.map_cons, List.nodup_append] at hnd
    intro b hb he
    exact hnd.2.2 (List.mem_map_of_mem Joint.name hb)
      (by rw [he]; exact List.mem_cons_self _ _)
  have hAne : ∀ a ∈ A, a.name ≠ j.name := by
    rw [List.map_append, List.map_cons, List.nodup_append] at hnd
    have h2 := hnd.2.1
    rw [List.nodup_cons] at h2
    intro a ha he
    exact h2.1 (he ▸ List.mem_map_of_mem Joint.name ha)
  refine ⟨B.filterMap (fun b =>
      if b.jtype = JointType.revolute ∨ b.jtype = JointType.prismatic then
        (URDFReader.getJointPosition (B ++ j :: A) b.name).map (fun v => (b.name, v))
      else none),
    A.filterMap (fun b =>
      if b.jtype = JointType.revolute ∨ b.jtype = JointType.prismatic then
        (URDFReader.getJointPosition (B ++ j :: A) b.name).map (fun v => (b.name, v))
      else none), ?_, ?_, ?_⟩
  · unfold URDFIKSolver.snapshotMovable
    rw [List.filterMap_append, List.filterMap_cons]
    rw [if_pos hmov, hget]
    rfl
  · intro p hp
    obtain ⟨b, hb, hfb⟩ := List.mem_filterMap.mp hp
    rw [snapshot_entry_name hfb]
    exact hBne b hb
  · intro p hp
    obtain ⟨a, ha, hfa⟩ := List.mem_filterMap.mp hp
    rw [snapshot_entry_name hfa]
    exact hAne a ha

theorem limitClamp_eq_cases {l : JointLimit K} (hlu : l.lower ≤ l.upper) (a : K) :
    max l.lower (min l.upper a)
      = if a < l.lower then l.lower else if l.upper < a then l.upper else a := by
  rcases lt_or_le a l.lower with h1 | h1
  · rw [if_pos h1, min_eq_right (le_of_lt (lt_of_lt_of_le h1 hlu)),
      max_eq_left (le_of_lt h1)]
  · rw [if_neg (not_lt.mpr h1)]
    rcases lt_or_le l.upper a with h2 | h2
    · rw [if_pos h2, min_eq_left (le_of_lt h2), max_eq_right hlu]
    · rw [if_neg (not_lt.mpr h2), min_eq_right h2, max_eq_right h1]

/-! Claim theorems. -/

/-- C3: across search steps with no intervening reset, the running best
cost is non-increasing: after every randomizePose step, bestDistance is
at most its value before the step, whatever the state, the random draws
and the scene oracle report. -/
theorem c3_bestDistance_monotone (N : NumOps K) (s : SolverState K)
    (rand : String → K) (eeFound : Bool) (eePose : Pose3 K) :
    (URDFIKSolver.randomizePose N s rand eeFound eePose).1.bestDistance
      ≤ s.bestDistance := by
  unfold URDFIKSolver.randomizePose
  rcases hs : s.endEffectorName with _ | e
  · cases eeFound <;> simp
  · cases eeFound
    · simp
    · dsimp only
      split
      · next hlt => exact le_of_lt hlt
      · exact le_refl _

/-- C5: while the target pose is absent, cost evaluation returns the
Infinity sentinel, and a search step never accepts: improved is false
and the best cost and best assignment are unchanged. -/
theorem c5_no_target_never_accepts (N : NumOps K) (s : SolverState K)
    (rand : String → K) (eeFound : Bool) (eePose : Pose3 K) (q : Quat K)
    (p : Vec3 K) (h : s.targetPose = none) :
    URDFIKSolver.calculatePositionCost N s.targetPose q p = ⊤
      ∧ (URDFIKSolver.randomizePose N s rand eeFound eePose).2.improved = false
      ∧ (URDFIKSolver.randomizePose N s rand eeFound eePose).1.bestDistance
          = s.bestDistance
      ∧ (URDFIKSolver.randomizePose N s rand eeFound eePose).1.bestJointAngles
          = s.bestJointAngles := by
  have hcost : ∀ (q' : Quat K) (p' : Vec3 K),
      URDFIKSolver.calculatePositionCost N s.targetPose q' p' = ⊤ := by
    intro q' p'
    rw [h]
    rfl
  refine ⟨hcost q p, ?_⟩
  unfold URDFIKSolver.randomizePose
  rcases hs : s.endEffectorName with _ | e
  · cases eeFound <;> simp
  · cases eeFound
    · simp
    · dsimp only
      rw [hcost, if_neg not_top_lt]
      simp

/-- C6: the combined cost equals the position cost plus rotationWeight
times the rotation cost, with the position weight fixed at 1.0 and the
omitted rotationWeight defaulting to 0.5. -/
theorem c6_combinedCost_formula (N : NumOps K) (point1 point2 : Vec3 K)
    (quat1 quat2 : Quat K) (rotationWeight : K) :
    CostCalculator.calculateCombinedCost N point1 point2 quat1 quat2 rotationWeight
        = CostCalculator.calculatePositionCost N point1 point2
          + rotationWeight * CostCalculator.calculateRotationCost N quat1 quat2
      ∧ CostCalculator.calculateCombinedCostDefault N point1 point2 quat1 quat2
        = CostCalculator.calculatePositionCost N point1 point2
          + 1 / 2 * CostCalculator.calculateRotationCost N quat1 quat2 := by
  constructor <;>
    simp [CostCalculator.calculateCombinedCost,
      CostCalculator.calculateCombinedCostDefault]

/-- C7: the rotation cost acos(clamp(2 |dot|^2 - 1, -1, 1)) of a unit
quaternion with itself is zero, with its antipode is zero, and the cost
is symmetric in its two arguments; stated for every interpretation of
acos satisfying acos 1 = 0, which the real arc cosine does. -/
theorem c7_rotationCost_symmetry (N : NumOps K) (hacos : N.tacos 1 = 0)
    (q qa qb : Quat K) (hq : quatDot q q = 1) :
    CostCalculator.calculateRotationCost N q q = 0
      ∧ CostCalculator.calculateRotationCost N q q.negQ = 0
      ∧ CostCalculator.calculateRotationCost N qa qb
          = CostCalculator.calculateRotationCost N qb qa := by
  have hone : (2 : K) * |(1 : K)| * |(1 : K)| - 1 = 1 := by norm_num
  have hclamp : min (1 : K) (max (-1) 1) = 1 := by norm_num
  refine ⟨?_, ?_, ?_⟩
  · unfold CostCalculator.calculateRotationCost
    rw [hq]
    dsimp only
    rw [hone, hclamp, hacos]
  · unfold CostCalculator.calculateRotationCost
    rw [quatDot_negQ, hq, abs_neg]
    dsimp only
    rw [hone, hclamp, hacos]
  · unfold CostCalculator.calculateRotationCost
    rw [quatDot_comm]

/-- C8: for a movable joint with limits lower <= upper, the value applied
by a direct set is lower when the request is below lower, upper when
above upper, and the request itself otherwise; setJointPosition stores
that clamped value as the joint currentPosition and returns it (no error
channel), and RobotKinematics.enforceJointLimits computes the same clamp
from its limits field. -/
theorem c8_setJointPosition_clamps (joints : List (Joint K)) (rd : RobotData K)
    (n : String) (a : K) (j j2 : Joint K) (l : JointLimit K)
    (hfind : findJointByName joints n = some j)
    (hnf : j.jtype ≠ JointType.fixed)
    (hlim : j.limit = some l)
    (hlu : l.lower ≤ l.upper)
    (hfind2 : findJointByName rd.joints n = some j2)
    (hlim2 : j2.limits = some l) :
    (URDFReader.setJointPosition joints n a).2
        = some (if a < l.lower then l.lower else if l.upper < a then l.upper else a)
      ∧ URDFReader.getJointPosition (URDFReader.setJointPosition joints n a).1 n
        = some (if a < l.lower then l.lower else if l.upper < a then l.upper else a)
      ∧ RobotKinematics.enforceJointLimits rd n a
        = (if a < l.lower then l.lower else if l.upper < a then l.upper else a) := by
  have hco := getJointPosition_setJointPosition_self joints a hfind hnf
  have hcl : limitClamp j.limit a
      = if a < l.lower then l.lower else if l.upper < a then l.upper else a := by
    rw [hlim]
    exact limitClamp_eq_cases hlu a
  refine ⟨by rw [hco.1, hcl], by rw [hco.2, hcl], ?_⟩
  unfold RobotKinematics.enforceJointLimits
  rw [hfind2]
  dsimp only
  rw [hlim2]
  exact limitClamp_eq_cases hlu a

/-- C9: when no joint has the chosen end-effector link as its child, the
built chain is empty and forward kinematics returns the identity pose,
or the root offset pose when one is supplied, whatever the assignment
contains; this holds for both FK implementations. -/
theorem c9_empty_chain_identity (N : NumOps K) (robotData : RobotData K)
    (e : String) (jointAngles : List (String × K)) (p : Vec3 K)
    (hroot : ∀ j ∈ robotData.joints, j.child ≠ e) :
    computeJointChain robotData.joints e = []
      ∧ RobotKinematics.calculateFK N robotData e jointAngles none
          = ⟨⟨0, 0, 0⟩, Mat3.id3⟩
      ∧ RobotKinematics.calculateFK N robotData e jointAngles (some p)
          = ⟨p, Mat3.id3⟩
      ∧ URDFIKSolver.calculateFK N robotData.joints robotData.links (some e) p
          jointAngles
        = some ⟨p, Mat3.id3⟩ := by
  have hfind : findJointByChild robotData.joints e = none := by
    unfold findJointByChild
    rw [List.find?_eq_none]
    intro j hj
    simpa using hroot j hj
  have hchain : computeJointChain robotData.joints e = [] := by
    unfold computeJointChain
    split
    · rfl
    · simp [computeJointChainFuel, hfind]
  refine ⟨hchain, ?_, ?_, ?_⟩
  · simp [RobotKinematics.calculateFK, hchain, TransformationUtils.decomposeTransform,
      Transf.ident]
  · simp [RobotKinematics.calculateFK, hchain, TransformationUtils.decomposeTransform]
  · simp [URDFIKSolver.calculateFK, hchain, TransformationUtils.decomposeTransform]

/-- Witness for c5_no_target_never_accepts at a concrete no-target state. -/
theorem c5_no_target_never_accepts_witness :
    URDFIKSolver.calculatePositionCost sampleOps inState.targetPose idPose.quat
        idPose.pos = ⊤
      ∧ (URDFIKSolver.randomizePose sampleOps inState (fun _ => 1) true
          idPose).2.improved = false
      ∧ (URDFIKSolver.randomizePose sampleOps inState (fun _ => 1) true
          idPose).1.bestDistance = inState.bestDistance
      ∧ (URDFIKSolver.randomizePose sampleOps inState (fun _ => 1) true
          idPose).1.bestJointAngles = inState.bestJointAngles :=
  c5_no_target_never_accepts sampleOps inState (fun _ => 1) true idPose
    idPose.quat idPose.pos rfl

/-- Witness for c7_rotationCost_symmetry at the identity quaternion and a
concrete pair. -/
theorem c7_rotationCost_symmetry_witness :
    CostCalculator.calculateRotationCost sampleOps ⟨0, 0, 0, 1⟩ ⟨0, 0, 0, 1⟩ = 0
      ∧ CostCalculator.calculateRotationCost sampleOps ⟨0, 0, 0, 1⟩
          (Quat.negQ ⟨0, 0, 0, 1⟩) = 0
      ∧ CostCalculator.calculateRotationCost sampleOps ⟨0, 0, 0, 1⟩ ⟨1, 0, 0, 0⟩
          = CostCalculator.calculateRotationCost sampleOps ⟨1, 0, 0, 0⟩ ⟨0, 0, 0, 1⟩ :=
  c7_rotationCost_symmetry sampleOps (by norm_num [sampleOps]) ⟨0, 0, 0, 1⟩
    ⟨0, 0, 0, 1⟩ ⟨1, 0, 0, 0⟩ (by norm_num [quatDot])

/-- Witness for c8_setJointPosition_clamps: a request of 5 against limits
[-1, 2] is applied, stored and returned as 2. -/
theorem c8_setJointPosition_clamps_witness :
    (URDFReader.setJointPosition bothLimModel.joints "elbow" 5).2 = some 2
      ∧ URDFReader.getJointPosition
          (URDFReader.setJointPosition bothLimModel.joints "elbow" 5).1 "elbow"
        = some 2
      ∧ RobotKinematics.enforceJointLimits bothLimModel "elbow" 5 = 2 := by
  have h := c8_setJointPosition_clamps bothLimModel.joints bothLimModel "elbow" 5
    bothLimJoint bothLimJoint ⟨-1, 2⟩
    (by simp [findJointByName, bothLimModel, bothLimJoint, List.find?])
    (by simp [bothLimJoint])
    (by simp [bothLimJoint])
    (by norm_num)
    (by simp [findJointByName, bothLimModel, bothLimJoint, List.find?])
    (by simp [bothLimJoint])
  norm_num at h
  exact h

/-- Witness for c9_empty_chain_identity: the base link of the two-joint
model is a root, the chain is empty and FK returns the offset pose even
under a nonempty assignment. -/
theorem c9_empty_chain_identity_witness :
    computeJointChain twoModel.joints "base" = []
      ∧ RobotKinematics.calculateFK sampleOps twoModel "base" [("j1", 5)] none
          = ⟨⟨0, 0, 0⟩, Mat3.id3⟩
      ∧ RobotKinematics.calculateFK sampleOps twoModel "base" [("j1", 5)]
          (some ⟨1, 2, 3⟩) = ⟨⟨1, 2, 3⟩, Mat3.id3⟩
      ∧ URDFIKSolver.calculateFK sampleOps twoModel.joints twoModel.links
          (some "base") ⟨1, 2, 3⟩ [("j1", 5)] = some ⟨⟨1, 2, 3⟩, Mat3.id3⟩ :=
  c9_empty_chain_identity sampleOps twoModel "base" [("j1", 5)] ⟨1, 2, 3⟩
    (by intro j hj; fin_cases hj <;> simp [twoModel])

theorem originFactor_match (N : NumOps K) (j : Joint K) (acc : Transf K) :
    (match j.origin with
      | none => acc
      | some o =>
        acc.multiply (TransformationUtils.createTransformMatrix N
          (o.xyz.getD ⟨0, 0, 0⟩) (o.rpy.getD ⟨0, 0, 0⟩)))
      = acc.multiply (originFactor N j) := by
  unfold originFactor
  cases j.origin with
  | none => rw [Transf.multiply_ident]
  | some o => rfl

theorem originFactor_default (N : NumOps K) (hcos : N.tcos 0 = 1)
    (hsin : N.tsin 0 = 0) (j : Joint K) (acc : Transf K) :
    acc.multiply (TransformationUtils.createTransformMatrix N
        (originXyz j.origin) (originRpy j.origin))
      = acc.multiply (originFactor N j) := by
  unfold originFactor originXyz originRpy
  cases j.origin with
  | none => rw [createTransformMatrix_zero N hcos hsin]
  | some o => rfl

theorem visualFactor_match (N : NumOps K) (links : List (Link K)) (c : String)
    (acc2 : Transf K) :
    (match visualOrigin links c with
      | none => acc2
      | some vo =>
        acc2.multiply (TransformationUtils.createTransformMatrix N
          (vo.xyz.getD ⟨0, 0, 0⟩) (vo.rpy.getD ⟨0, 0, 0⟩)))
      = acc2.multiply (visualFactor N links c) := by
  unfold visualFactor
  cases visualOrigin links c with
  | none => rw [Transf.multiply_ident]
  | some vo => rfl

theorem motionSpec_if (N : NumOps K) (j : Joint K)
    (jointAngles : List (String × K)) (X : Transf K) :
    (if (j.jtype = JointType.revolute ∨ j.jtype = JointType.prismatic)
        ∧ (mapGet jointAngles j.name).isSome = true then
      if j.jtype = JointType.revolute then
        X.multiply ⟨makeRotationAxis N (Vec3.normalizeV N (j.axis.getD ⟨0, 0, 1⟩))
          ((mapGet jointAngles j.name).getD 0), ⟨0, 0, 0⟩⟩
      else
        X.multiply (makeTranslation
          ⟨(Vec3.normalizeV N (j.axis.getD ⟨0, 0, 1⟩)).x
              * (mapGet jointAngles j.name).getD 0,
            (Vec3.normalizeV N (j.axis.getD ⟨0, 0, 1⟩)).y
              * (mapGet jointAngles j.name).getD 0,
            (Vec3.normalizeV N (j.axis.getD ⟨0, 0, 1⟩)).z
              * (mapGet jointAngles j.name).getD 0⟩)
    else X)
      = X.multiply (jointMotionSpec N j jointAngles) := by
  unfold jointMotionSpec
  cases hm : mapGet jointAngles j.name with
  | none =>
    rw [if_neg (by simp)]
    dsimp only
    rw [Transf.multiply_ident]
  | some a =>
    dsimp only
    by_cases hr : j.jtype = JointType.revolute
    · rw [if_pos ⟨Or.inl hr, rfl⟩, if_pos hr, if_pos hr]
      rfl
    · by_cases hp : j.jtype = JointType.prismatic
      · rw [if_pos ⟨Or.inr hp, rfl⟩, if_neg hr, if_neg hr, if_pos hp]
        rfl
      · rw [if_neg (fun hco => hco.1.elim hr hp), if_neg hr, if_neg hp,
          Transf.multiply_ident]

theorem rkMotion_spec (N : NumOps K) (hcos : N.tcos 0 = 1) (hsin : N.tsin 0 = 0)
    (j : Joint K) (jointAngles : List (String × K))
    (hrev : (mapGet jointAngles j.name).isSome = true →
      j.jtype = JointType.revolute) (X : Transf K) :
    X.multiply ⟨makeRotationAxis N (Vec3.normalizeV N (j.axis.getD ⟨0, 0, 1⟩))
        ((mapGet jointAngles j.name).getD 0), ⟨0, 0, 0⟩⟩
      = X.multiply (jointMotionSpec N j jointAngles) := by
  unfold jointMotionSpec
  cases hm : mapGet jointAngles j.name with
  | none =>
    dsimp only [Option.getD]
    rw [makeRotationAxis_zero N hcos hsin]
    rfl
  | some a =>
    dsimp only [Option.getD]
    rw [if_pos (hrev (by rw [hm]; rfl))]
    rfl

theorem solver_fkStep_factor (N : NumOps K) (links : List (Link K))
    (jointAngles : List (String × K)) (acc : Transf K) (entry : ChainEntry K) :
    URDFIKSolver.fkStep N links jointAngles acc entry
      = ((acc.multiply (originFactor N entry.joint)).multiply
            (jointMotionSpec N entry.joint jointAngles)).multiply
          (visualFactor N links entry.childLink) := by
  unfold URDFIKSolver.fkStep
  dsimp only
  rw [originFactor_match N entry.joint acc,
    motionSpec_if N entry.joint jointAngles
      (acc.multiply (originFactor N entry.joint)),
    visualFactor_match]

theorem rk_fkStep_factor (N : NumOps K) (links : List (Link K))
    (jointAngles : List (String × K)) (hcos : N.tcos 0 = 1) (hsin : N.tsin 0 = 0)
    (entry : ChainEntry K)
    (hrev : (mapGet jointAngles entry.joint.name).isSome = true →
      entry.joint.jtype = JointType.revolute) (acc : Transf K) :
    RobotKinematics.fkStep N links jointAngles acc entry
      = ((acc.multiply (originFactor N entry.joint)).multiply
            (jointMotionSpec N entry.joint jointAngles)).multiply
          (visualFactor N links entry.childLink) := by
  unfold RobotKinematics.fkStep
  dsimp only
  rw [originFactor_default N hcos hsin entry.joint acc,
    rkMotion_spec N hcos hsin entry.joint jointAngles hrev
      (acc.multiply (originFactor N entry.joint)),
    visualFactor_match]

/-- C2 (amended): in URDFIKSolver.calculateFK, every chain step factors as
origin transform, then the joint-motion transform exactly as the claim
words it (axis rotation for a revolute joint with an assigned angle, axis
translation for a prismatic joint with an assigned displacement, over the
normalized axis and the assigned scalar, and no motion for fixed joints
or joints absent from the assignment), then the child visual origin.
RobotKinematics.calculateFK violates the claim (see the counterexample):
it composes an axis rotation for every chain joint, including prismatic
and fixed ones, with the angle defaulted to 0. -/
theorem c2_solver_motion_factorization (N : NumOps K) (links : List (Link K))
    (jointAngles : List (String × K)) (acc : Transf K) (entry : ChainEntry K) :
    URDFIKSolver.fkStep N links jointAngles acc entry
      = ((acc.multiply (originFactor N entry.joint)).multiply
            (jointMotionSpec N entry.joint jointAngles)).multiply
          (visualFactor N links entry.childLink) :=
  solver_fkStep_factor N links jointAngles acc entry

/-- C2 counterexample: on the single prismatic joint model with assigned
displacement 1, the RobotKinematics FK step is not the origin, claimed
axis-translation motion, visual composition: the step leaves the
accumulator translation at the origin while the claimed motion transform
translates one unit along z. -/
theorem c2_rk_motion_counterexample :
    RobotKinematics.fkStep sampleOps prisModel.links [("slide", 1)] Transf.ident
        prisEntry
      ≠ ((Transf.ident.multiply (originFactor sampleOps prisJoint)).multiply
            (jointMotionSpec sampleOps prisJoint [("slide", 1)])).multiply
          (visualFactor sampleOps prisModel.links "tip") := by
  simp [RobotKinematics.fkStep, originFactor, jointMotionSpec, visualFactor,
    axisRotation, axisTranslation, prisModel, prisJoint, prisEntry,
    TransformationUtils.createTransformMatrix,
    eulerXYZ, Mat3.rotX, Mat3.rotY, Mat3.rotZ, Mat3.mul, Mat3.mulVec, Mat3.id3,
    Vec3.add, Vec3.normalizeV, Vec3.lengthSq, makeRotationAxis, makeTranslation,
    Transf.ident, Transf.multiply, mapGet, originXyz, originRpy, visualOrigin,
    findLink, sampleOps, List.find?, Transf.mk.injEq, Vec3.mk.injEq, Mat3.mk.injEq]

/-- C1 (amended): whenever every chain joint that has an entry in the
assignment is revolute, and under the real-trigonometry facts cos 0 = 1
and sin 0 = 0, the two FK implementations agree exactly (hence within any
tolerance) on the whole pose, for the same root offset.  As claimed
originally, over all models and assignments, the equivalence is false:
see the prismatic counterexample. -/
theorem c1_calculateFK_agree (N : NumOps K) (robotData : RobotData K) (e : String)
    (jointAngles : List (String × K)) (p : Vec3 K)
    (hcos : N.tcos 0 = 1) (hsin : N.tsin 0 = 0)
    (hrev : ∀ entry ∈ computeJointChain robotData.joints e,
      (mapGet jointAngles entry.joint.name).isSome = true →
        entry.joint.jtype = JointType.revolute) :
    URDFIKSolver.calculateFK N robotData.joints robotData.links (some e) p
        jointAngles
      = some (RobotKinematics.calculateFK N robotData e jointAngles (some p)) := by
  unfold URDFIKSolver.calculateFK RobotKinematics.calculateFK
  dsimp only
  have hfold : (computeJointChain robotData.joints e).foldl
        (URDFIKSolver.fkStep N robotData.links jointAngles) ⟨Mat3.id3, p⟩
      = (computeJointChain robotData.joints e).foldl
        (RobotKinematics.fkStep N robotData.links jointAngles) ⟨Mat3.id3, p⟩ := by
    apply List.foldl_ext
    intro a entry hmem
    rw [solver_fkStep_factor,
      rk_fkStep_factor N robotData.links jointAngles hcos hsin entry
        (hrev entry hmem) a]
  rw [hfold]

/-- C1 counterexample: on the single prismatic joint model with assigned
displacement 1 and a zero root offset, URDFIKSolver.calculateFK places
the end effector at z = 1 (an axis translation) while
RobotKinematics.calculateFK leaves it at z = 0 (it applies an axis
rotation instead), so the positions differ by 1, far beyond the 1e-6
tolerance.  The two positions do not depend on the values of the
trigonometric primitives at nonzero angles. -/
theorem c1_calculateFK_counterexample :
    (URDFIKSolver.calculateFK sampleOps prisModel.joints prisModel.links
        (some "tip") ⟨0, 0, 0⟩ [("slide", 1)]).map (fun r => r.position.z)
        = some 1
      ∧ (RobotKinematics.calculateFK sampleOps prisModel "tip" [("slide", 1)]
          (some ⟨0, 0, 0⟩)).position.z = 0
      ∧ ¬ (|(1 : ℚ) - 0| ≤ 1 / 1000000) := by
  refine ⟨?_, ?_, by norm_num⟩ <;>
    simp [URDFIKSolver.calculateFK, URDFIKSolver.fkStep,
      RobotKinematics.calculateFK, RobotKinematics.fkStep, computeJointChain,
      computeJointChainFuel, findJointByChild, prisModel, prisJoint,
      TransformationUtils.createTransformMatrix,
      TransformationUtils.decomposeTransform,
      eulerXYZ, Mat3.rotX, Mat3.rotY, Mat3.rotZ, Mat3.mul, Mat3.mulVec, Mat3.id3,
      Vec3.add, Vec3.normalizeV, Vec3.lengthSq, makeRotationAxis, makeTranslation,
      Transf.ident, Transf.multiply, mapGet, originXyz, originRpy, visualOrigin,
      findLink, sampleOps, List.find?]

/-- Witness for c1_calculateFK_agree on the one-revolute-joint model with
an assigned angle. -/
theorem c1_calculateFK_agree_witness :
    URDFIKSolver.calculateFK sampleOps revModel.joints revModel.links (some "tip")
        ⟨0, 0, 0⟩ [("elbow", 1)]
      = some (RobotKinematics.calculateFK sampleOps revModel "tip" [("elbow", 1)]
          (some ⟨0, 0, 0⟩)) :=
  c1_calculateFK_agree sampleOps revModel "tip" [("elbow", 1)] ⟨0, 0, 0⟩ rfl rfl
    (by
      intro entry hmem hsome
      have hch : computeJointChain revModel.joints "tip"
          = [⟨revJoint, "tip", "base"⟩] := by
        simp [computeJointChain, computeJointChainFuel, findJointByChild, revModel,
          revJoint, List.find?]
      rw [hch] at hmem
      simp at hmem
      rw [hmem]
      rfl)

/-- C4 counterexample: a rejected step does not always restore the
pre-step positions.  The joint elbow stores position 0, outside its
declared limit range [1, 2]; the step (no target, so it is rejected and
reports improved false) restores through setJointPosition, which
re-clamps, leaving the stored position at 1 instead of the pre-step 0. -/
theorem c4_restore_counterexample :
    (URDFIKSolver.randomizePose sampleOps outState (fun _ => 0) true
        idPose).2.improved = false
      ∧ URDFReader.getJointPosition outState.joints "elbow" = some 0
      ∧ URDFReader.getJointPosition
          (URDFIKSolver.randomizePose sampleOps outState (fun _ => 0) true
            idPose).1.joints "elbow"
        = some 1 := by
  refine ⟨?_, ?_, ?_⟩ <;>
    simp [URDFIKSolver.randomizePose, URDFIKSolver.snapshotMovable,
      URDFIKSolver.perturbJoint, URDFIKSolver.applyConfiguration,
      URDFIKSolver.calculatePositionCost, URDFReader.setJointPosition,
      URDFReader.getJointPosition, findJointByName, limitClamp, updateJoint,
      mapGet, outState, outJoint, sampleOps, idPose, List.find?]

/-- C4 (amended): a rejected randomizePose step (improved = false)
restores every movable joint to its pre-step stored position, provided
the end effector is set and its scene object is found (without it the
code returns improved false but skips the restore), and every movable
joint's pre-step position lies within its declared limit range when it
has one (the restore goes through setJointPosition, which re-clamps). -/
theorem c4_reject_restores (N : NumOps K) (s : SolverState K) (rand : String → K)
    (eePose : Pose3 K) (e : String)
    (hee : s.endEffectorName = some e)
    (hnd : (s.joints.map Joint.name).Nodup)
    (hlim : ∀ j ∈ s.joints,
      (j.jtype = JointType.revolute ∨ j.jtype = JointType.prismatic) →
        limitClamp j.limit j.currentPosition = j.currentPosition)
    (himp : (URDFIKSolver.randomizePose N s rand true eePose).2.improved
      = false) :
    ∀ j ∈ s.joints,
      (j.jtype = JointType.revolute ∨ j.jtype = JointType.prismatic) →
        URDFReader.getJointPosition
            (URDFIKSolver.randomizePose N s rand true eePose).1.joints j.name
          = some j.currentPosition := by
  intro j hj hmov
  have hrestore : ∀ st : List (Joint K), shapeAt st j.name = some j.eraseCur →
      URDFReader.getJointPosition
          (URDFReader.setJointPosition st j.name j.currentPosition).1 j.name
        = some j.currentPosition := by
    intro st hst
    obtain ⟨j1, hfind1, herase⟩ :
        ∃ j1, findJointByName st j.name = some j1 ∧ j1.eraseCur = j.eraseCur := by
      unfold shapeAt at hst
      cases hf : findJointByName st j.name with
      | none => rw [hf] at hst; cases hst
      | some j1 =>
        rw [hf] at hst
        exact ⟨j1, rfl, Option.some.inj hst⟩
    have hjt : j1.jtype = j.jtype := by
      have h3 : j1.eraseCur.jtype = j.eraseCur.jtype := by rw [herase]
      exact h3
    have hil : j1.limit = j.limit := by
      have h3 : j1.eraseCur.limit = j.eraseCur.limit := by rw [herase]
      exact h3
    have hnf : j1.jtype ≠ JointType.fixed := by
      rw [hjt]
      rcases hmov with h | h <;> rw [h] <;> intro hc <;> cases hc
    have h2 := (getJointPosition_setJointPosition_self st j.currentPosition
      hfind1 hnf).2
    rw [h2, hil, hlim j hj hmov]
  unfold URDFIKSolver.randomizePose at himp ⊢
  rw [hee] at himp ⊢
  dsimp only at himp ⊢
  by_cases hlt : URDFIKSolver.calculatePositionCost N s.targetPose eePose.quat
      eePose.pos < s.bestDistance
  · rw [if_pos hlt] at himp
    cases himp
  · rw [if_neg hlt]
    dsimp only
    obtain ⟨P1, P2, hsplit, hP1, hP2⟩ := snapshotMovable_split hnd hj hmov
    rw [hsplit, applyConfiguration_append, applyConfiguration_cons]
    rw [getJointPosition_applyConfiguration_ne _ _ _ hP2]
    apply hrestore
    rw [shapeAt_applyConfiguration, shapeAt_perturbFold]
    unfold shapeAt
    rw [findJointByName_of_nodup hnd hj]
    rfl

/-- Witness for c4_reject_restores: with the stored position 0 inside the
limit range [-1, 1], the rejected step restores elbow to 0. -/
theorem c4_reject_restores_witness :
    URDFReader.getJointPosition
        (URDFIKSolver.randomizePose sampleOps inState (fun _ => 1) true
          idPose).1.joints "elbow"
      = some 0 := by
  have h := c4_reject_restores sampleOps inState (fun _ => 1) idPose "tip" rfl
    (by simp [inState, inJoint])
    (by
      intro j hj hm
      fin_cases hj
      norm_num [inJoint, limitClamp])
    (by
      simp [URDFIKSolver.randomizePose, URDFIKSolver.snapshotMovable,
        URDFIKSolver.perturbJoint, URDFIKSolver.applyConfiguration,
        URDFIKSolver.calculatePositionCost, URDFReader.setJointPosition,
        URDFReader.getJointPosition, findJointByName, limitClamp, updateJoint,
        mapGet, inState, inJoint, sampleOps, idPose, List.find?])
    inJoint (by simp [inState]) (Or.inl rfl)
  exact h

theorem computeJointChainFuel_stable (joints : List (Joint K)) :
    ∀ m c, chainDone joints m c = true → ∀ m2, m ≤ m2 →
      computeJointChainFuel joints m2 c = computeJointChainFuel joints m c := by
  intro m
  induction m with
  | zero =>
    intro c hdone
    cases hdone
  | succ m ih =>
    intro c hdone m2 hle
    obtain ⟨m2', rfl⟩ : ∃ m2', m2 = m2' + 1 := ⟨m2 - 1, by omega⟩
    unfold chainDone at hdone
    unfold computeJointChainFuel
    cases hf : findJointByChild joints c with
    | none => rfl
    | some j =>
      rw [hf] at hdone
      dsimp only at hdone ⊢
      by_cases hp : j.parent = ""
      · rw [if_pos hp, if_pos hp]
      · rw [if_neg hp, if_neg hp]
        rw [if_neg hp] at hdone
        rw [ih j.parent hdone m2' (by omega)]

theorem chainDone_false_walk (joints : List (Joint K)) :
    ∀ m c, chainDone joints m c = false → ∀ i, i < m →
      ∃ d, stepN joints i c = some d ∧ parentStep joints d ≠ none := by
  intro m
  induction m with
  | zero =>
    intro c _ i hi
    omega
  | succ m ih =>
    intro c hfalse i hi
    unfold chainDone at hfalse
    cases hf : findJointByChild joints c with
    | none => rw [hf] at hfalse; cases hfalse
    | some j =>
      rw [hf] at hfalse
      dsimp only at hfalse
      by_cases hp : j.parent = ""
      · rw [if_pos hp] at hfalse; cases hfalse
      · rw [if_neg hp] at hfalse
        have hpstep : parentStep joints c = some j.parent := by
          unfold parentStep
          rw [hf]
          dsimp only
          rw [if_neg hp]
        cases i with
        | zero => exact ⟨c, rfl, by rw [hpstep]; exact Option.noConfusion⟩
        | succ i' =>
          obtain ⟨d, hd, hne⟩ := ih j.parent hfalse i' (by omega)
          refine ⟨d, ?_, hne⟩
          unfold stepN
          rw [hpstep]
          exact hd

theorem stepN_add (joints : List (Joint K)) (a b : Nat) :
    ∀ c, stepN joints (a + b) c
      = (stepN joints a c).bind (fun d => stepN joints b d) := by
  induction a with
  | zero =>
    intro c
    rw [Nat.zero_add]
    rfl
  | succ a ih =>
    intro c
    rw [show a + 1 + b = (a + b) + 1 from by omega]
    show (match parentStep joints c with
        | none => none
        | some p => stepN joints (a + b) p)
      = (match parentStep joints c with
        | none => none
        | some p => stepN joints a p).bind (fun d => stepN joints b d)
    cases parentStep joints c with
    | none => rfl
    | some p => exact ih p

theorem chainDone_of_acyclic (joints : List (Joint K))
    (hacyc : AcyclicParents joints) (c : String) :
    chainDone joints (joints.length + 1) c = true := by
  by_contra hfalse
  rw [Bool.not_eq_true] at hfalse
  have hwalk := chainDone_false_walk joints (joints.length + 1) c hfalse
  have hjoint : ∀ i : Fin (joints.length + 1), ∃ jd : Joint K, ∃ d,
      stepN joints i.val c = some d ∧ findJointByChild joints d = some jd := by
    intro i
    obtain ⟨d, hd, hne⟩ := hwalk i.val (by omega)
    unfold parentStep at hne
    cases hf : findJointByChild joints d with
    | none => rw [hf] at hne; exact absurd rfl hne
    | some jd => exact ⟨jd, d, hd, hf⟩
  choose jf df hstep hfind using hjoint
  have hchild : ∀ i, (jf i).child = df i := by
    intro i
    have h2 := List.find?_some (hfind i)
    simpa using h2
  have haux : ∀ i k : Fin (joints.length + 1), i.val < k.val → jf i ≠ jf k := by
    intro i k hik heq
    have hdd : df i = df k := by rw [← hchild i, heq, hchild k]
    have hb := hstep k
    rw [show k.val = i.val + (k.val - i.val) from by omega, stepN_add,
      hstep i] at hb
    rw [Option.some_bind] at hb
    rw [← hdd] at hb
    exact hacyc (df i) (k.val - i.val) (by omega) hb
  have hinj : Function.Injective jf := by
    intro i k heq
    by_contra hne
    have hv : i.val ≠ k.val := fun hvv => hne (Fin.ext hvv)
    rcases Nat.lt_or_ge i.val k.val with hlt | hge
    · exact haux i k hlt heq
    · exact haux k i (by omega) heq.symm
  have hnodup : (List.ofFn jf).Nodup := List.nodup_ofFn.mpr hinj
  have hsubl : List.ofFn jf ⊆ joints := by
    intro x hx
    rw [List.mem_ofFn] at hx
    obtain ⟨i, rfl⟩ := hx
    exact List.mem_of_find?_eq_some (hfind i)
  have hle := (List.subperm_of_subset hnodup hsubl).length_le
  rw [List.length_ofFn] at hle
  omega

theorem chainFuel_linked (joints : List (Joint K)) :
    ∀ m c, List.Chain' (fun a b => b.parentLink = a.childLink)
        (computeJointChainFuel joints m c)
      ∧ ∀ x ∈ (computeJointChainFuel joints m c).getLast?, x.childLink = c := by
  intro m
  induction m with
  | zero =>
    intro c
    exact ⟨List.chain'_nil, by intro x hx; cases hx⟩
  | succ m ih =>
    intro c
    unfold computeJointChainFuel
    cases hf : findJointByChild joints c with
    | none => exact ⟨List.chain'_nil, by intro x hx; cases hx⟩
    | some j =>
      dsimp only
      by_cases hp : j.parent = ""
      · rw [if_pos hp]
        refine ⟨List.chain'_singleton _, ?_⟩
        intro x hx
        simp only [List.getLast?_singleton, Option.mem_def, Option.some.injEq] at hx
        rw [← hx]
      · rw [if_neg hp]
        obtain ⟨ihc, ihl⟩ := ih j.parent
        constructor
        · rw [List.chain'_append]
          refine ⟨ihc, List.chain'_singleton _, ?_⟩
          intro x hx y hy
          simp only [List.head?_cons, Option.mem_def, Option.some.injEq] at hy
          rw [← hy]
          exact (ihl x hx).symm
        · intro x hx
          rw [List.getLast?_concat] at hx
          simp only [Option.mem_def, Option.some.injEq] at hx
          rw [← hx]

/-- C10 (amended): on a model whose child-to-parent walk never revisits a
link, the chain-building loop terminates: any fuel of at least
joints.length + 1 gives the same chain (the fuel computeJointChain uses),
and that chain is linked root-to-tip in the sense that every consecutive
pair of entries satisfies next.parentLink = previous.childLink, with the
last entry's child link the requested end effector.  As literally worded
(every entry's parent link equal to the next-closer-to-tip entry's child
link) the linkage is swapped and false: see the counterexample. -/
theorem c10_chain_construction (joints : List (Joint K)) (e : String)
    (hacyc : AcyclicParents joints) :
    (∀ m, joints.length + 1 ≤ m →
        computeJointChainFuel joints m e
          = computeJointChainFuel joints (joints.length + 1) e)
      ∧ List.Chain' (fun a b => b.parentLink = a.childLink)
          (computeJointChain joints e)
      ∧ ∀ x ∈ (computeJointChain joints e).getLast?, x.childLink = e := by
  refine ⟨?_, ?_, ?_⟩
  · intro m hm
    exact computeJointChainFuel_stable joints (joints.length + 1) e
      (chainDone_of_acyclic joints hacyc e) m hm
  · unfold computeJointChain
    split
    · exact List.chain'_nil
    · exact (chainFuel_linked joints (joints.length + 1) e).1
  · unfold computeJointChain
    split
    · intro x hx; cases hx
    · exact (chainFuel_linked joints (joints.length + 1) e).2

/-- C10 counterexample: on the two-joint chain base to link1 to tip, the
chain entries are (j1, parent base, child link1) then (j2, parent link1,
child tip); the first entry's parent link (base) differs from the
next-closer-to-tip entry's child link (tip), so the linkage as literally
worded fails, while child-to-next-parent linkage holds. -/
theorem c10_linkage_counterexample :
    (computeJointChain twoModel.joints "tip").map ChainEntry.parentLink
        = ["base", "link1"]
      ∧ (computeJointChain twoModel.joints "tip").map ChainEntry.childLink
        = ["link1", "tip"]
      ∧ ("base" : String) ≠ "tip" := by
  refine ⟨?_, ?_, by decide⟩ <;>
    simp [computeJointChain, computeJointChainFuel, findJointByChild, twoModel,
      List.find?]

theorem acyclic_of_rank (joints : List (Joint K)) (rank : String → Nat)
    (h : ∀ c p, parentStep joints c = some p → rank p < rank c) :
    AcyclicParents joints := by
  have key : ∀ n c d, stepN joints (n + 1) c = some d → rank d < rank c := by
    intro n
    induction n with
    | zero =>
      intro c d hs
      unfold stepN at hs
      cases hp : parentStep joints c with
      | none => rw [hp] at hs; cases hs
      | some p =>
        rw [hp] at hs
        dsimp only [stepN] at hs
        rw [← Option.some.inj hs]
        exact h c p hp
    | succ n ih =>
      intro c d hs
      unfold stepN at hs
      cases hp : parentStep joints c with
      | none => rw [hp] at hs; cases hs
      | some p =>
        rw [hp] at hs
        dsimp only at hs
        exact lt_trans (ih p d hs) (h c p hp)
  intro c n hn hs
  obtain ⟨n', rfl⟩ : ∃ n', n = n' + 1 := ⟨n - 1, by omega⟩
  exact absurd (key n' c c hs) (lt_irrefl _)

/-- Witness for c10_chain_construction on the acyclic two-joint model:
larger fuels agree with the canonical one and the built chain is linked
with tip child equal to the end effector. -/
theorem c10_chain_construction_witness :
    (∀ m, twoModel.joints.length + 1 ≤ m →
        computeJointChainFuel twoModel.joints m "tip"
          = computeJointChainFuel twoModel.joints (twoModel.joints.length + 1)
              "tip")
      ∧ List.Chain' (fun a b => b.parentLink = a.childLink)
          (computeJointChain twoModel.joints "tip")
      ∧ ∀ x ∈ (computeJointChain twoModel.joints "tip").getLast?,
          x.childLink = "tip" :=
  c10_chain_construction twoModel.joints "tip"
    (acyclic_of_rank twoModel.joints
      (fun c => if c = "tip" then 2 else if c = "link1" then 1 else 0)
      (by
        intro c p hp
        unfold parentStep findJointByChild at hp
        by_cases h1 : c = "link1"
        · subst h1
          simp [twoModel, List.find?] at hp
          subst hp
          decide
        · by_cases h2 : c = "tip"
          · subst h2
            simp [twoModel, List.find?] at hp
            subst hp
            decide
          · have e1 : ("link1" == c) = false := by
              simp only [beq_eq_false_iff_ne, ne_eq]
              exact fun he => h1 he.symm
            have e2 : ("tip" == c) = false := by
              simp only [beq_eq_false_iff_ne, ne_eq]
              exact fun he => h2 he.symm
            rw [show twoModel.joints.find? (fun j => j.child == c)
                = List.find? (fun j => j.child == c) twoModel.joints from rfl] at hp
            simp only [twoModel, List.find?, e1, e2] at hp
            cases hp))

end JsRob
